import Mathlib

/-!
Verification of the in-memory caching / write-buffering core of the
isucondition service (main.go).  Go strings are modelled as `List Char`
(byte strings with one cell per byte for the ASCII data involved), Go maps
as association lists, fallible store calls as explicit result values, and
each background-scheduler iteration as a pure state-transition function.
A Go runtime panic (out-of-range string index) is modelled as `none`.
-/

deriving instance DecidableEq for Except

namespace Piscon

/-! ### Severity classifier and condition-format validator (main.go 1398-1414, 1604-1634) -/

/-- Constant conditionLevelInfo = "info" (main.go line 42). -/
def conditionLevelInfo : String := "info"

/-- Constant conditionLevelWarning = "warning" (main.go line 43). -/
def conditionLevelWarning : String := "warning"

/-- Constant conditionLevelCritical = "critical" (main.go line 44). -/
def conditionLevelCritical : String := "critical"

/-- The Go literal "true" (isValidConditionFormat, valueTrue). -/
def valueTrue : List Char := ['t', 'r', 'u', 'e']

/-- The Go literal "false" (isValidConditionFormat, valueFalse). -/
def valueFalse : List Char := ['f', 'a', 'l', 's', 'e']

/-- The Go literal "is_dirty=" (first element of keys). -/
def keyIsDirty : List Char := ['i', 's', '_', 'd', 'i', 'r', 't', 'y', '=']

/-- The Go literal "is_overweight=" (second element of keys). -/
def keyIsOverweight : List Char :=
  ['i', 's', '_', 'o', 'v', 'e', 'r', 'w', 'e', 'i', 'g', 'h', 't', '=']

/-- The Go literal "is_broken=" (third element of keys). -/
def keyIsBroken : List Char := ['i', 's', '_', 'b', 'r', 'o', 'k', 'e', 'n', '=']

/-- The keys slice of isValidConditionFormat (main.go line 1606). -/
def conditionKeys : List (List Char) := [keyIsDirty, keyIsOverweight, keyIsBroken]

/-- One loop iteration head of isValidConditionFormat (main.go 1611-1622):
check `strings.HasPrefix(conditionStr[idxCondStr:], key)` and advance past the
key, then check for the literal `true` or `false` and advance past it.
Returns the remaining suffix, or `none` when either check fails (in both
cases the Go function returns false). -/
def consumeKeyValue (key rest : List Char) : Option (List Char) :=
  if key.isPrefixOf rest then
    let r1 := rest.drop key.length
    if valueTrue.isPrefixOf r1 then some (r1.drop valueTrue.length)
    else if valueFalse.isPrefixOf r1 then some (r1.drop valueFalse.length)
    else none
  else none

/-- The loop of isValidConditionFormat (main.go 1610-1631) over the remaining
keys, holding the remaining suffix `conditionStr[idxCondStr:]`.  After a value
for a non-last key the Go code reads `conditionStr[idxCondStr]` to compare it
with ',': when the suffix is empty this index is out of range and the Go
program panics, modelled by `none`.  After the last key the function returns
`idxCondStr == len(conditionStr)`, i.e. whether the suffix is empty. -/
def runKeys : List (List Char) → List Char → Option Bool
  | [], rest => some (decide (rest = []))
  | key :: keys, rest =>
    match consumeKeyValue key rest with
    | none => some false
    | some r2 =>
      match keys with
      | [] => some (decide (r2 = []))
      | _ :: _ =>
        match r2 with
        | [] => none
        | c :: r3 => if c = ',' then runKeys keys r3 else some false

/-- isValidConditionFormat (main.go 1604-1634); `some b` is a normal return of
`b`, `none` is a runtime panic from the out-of-range index at line 1625. -/
def isValidConditionFormat (conditionStr : List Char) : Option Bool :=
  runKeys conditionKeys conditionStr

/-- Auxiliary scan of Go strings.Count(s, substr) for a non-empty substr:
count non-overlapping instances, resuming the search just past each match.
The extra fuel argument makes the recursion structural; every step consumes at
least one character, so fuel equal to the length of the scanned list (as
supplied by countSubstrAux) is never exhausted. -/
def countSubstrFuel (pat : List Char) : Nat → List Char → Nat
  | 0, _ => 0
  | _ + 1, [] => 0
  | fuel + 1, c :: rest =>
    if pat.isPrefixOf (c :: rest) then
      1 + countSubstrFuel pat fuel (rest.drop (pat.length - 1))
    else
      countSubstrFuel pat fuel rest

/-- Scan of Go strings.Count(s, substr) for a non-empty substr. -/
def countSubstrAux (pat s : List Char) : Nat :=
  countSubstrFuel pat s.length s

/-- Go strings.Count(s, substr): number of non-overlapping instances of
substr in s; for an empty substr, 1 + the number of runes in s. -/
def stringsCount (s pat : List Char) : Nat :=
  if pat = [] then s.length + 1 else countSubstrAux pat s

/-- calculateConditionLevel (main.go 1398-1414): count the "=true" substrings
and map 0 to info, 1 or 2 to warning, 3 to critical; any other count is an
error ("unexpected warn count"). -/
def calculateConditionLevel (condition : List Char) : Except Unit String :=
  match stringsCount condition ['=', 't', 'r', 'u', 'e'] with
  | 0 => .ok conditionLevelInfo
  | 1 => .ok conditionLevelWarning
  | 2 => .ok conditionLevelWarning
  | 3 => .ok conditionLevelCritical
  | _ => .error ()

/-- The boolean literal written after a key: "true" or "false". -/
def boolLit (b : Bool) : List Char := if b then valueTrue else valueFalse

/-- A fully well-formed condition string:
is_dirty=b1,is_overweight=b2,is_broken=b3. -/
def mkConditionStr (b1 b2 b3 : Bool) : List Char :=
  keyIsDirty ++ boolLit b1 ++
    ',' :: (keyIsOverweight ++ boolLit b2 ++ ',' :: (keyIsBroken ++ boolLit b3))

/-- An input ending exactly after the first boolean value, e.g. "is_dirty=true";
the validator's comma check indexes past the end of such an input. -/
def overrunInput1 (b1 : Bool) : List Char := keyIsDirty ++ boolLit b1

/-- An input ending exactly after the second boolean value,
e.g. "is_dirty=true,is_overweight=false"; the validator's second comma check
indexes past the end of such an input. -/
def overrunInput2 (b1 b2 : Bool) : List Char :=
  keyIsDirty ++ boolLit b1 ++ ',' :: (keyIsOverweight ++ boolLit b2)

/-! ### Read-through point caches (main.go 180-271) -/

/-- A Go map guarded by a mutex, modelled as an association list; a fresh
binding shadows earlier ones and deletion removes all bindings of the key. -/
abbrev CacheMap (α : Type) := List (String × α)

/-- Go map read m[k]: the value of the first (most recent) binding of k. -/
def cacheFind : CacheMap α → String → Option α
  | [], _ => none
  | (k', v) :: m, k => if k = k' then some v else cacheFind m k

/-- Go map assignment m[k] = v. -/
def cachePut (m : CacheMap α) (k : String) (v : α) : CacheMap α := (k, v) :: m

/-- IsuConditionCache.Forget / IsuCache.Forget (main.go 208-212, 242-246):
delete(cc.cache, key) under the lock. -/
def cacheForget : CacheMap α → String → CacheMap α
  | [], _ => []
  | (k', v) :: m, k =>
    if k' = k then cacheForget m k else (k', v) :: cacheForget m k

/-- Result of one db.Get point load: a row, sql.ErrNoRows, or another error. -/
inductive Load (α : Type) where
  | found (v : α)
  | noRows
  | err
deriving DecidableEq

/-- Errors returned by a cache Get: sql.ErrNoRows (the NotFound error that
errors.Is(err, sql.ErrNoRows) recognises) or any other store error. -/
inductive DbErr where
  | noRows
  | other
deriving DecidableEq

/-- IsuConditionCache.Get (main.go 185-206) and the textually parallel
IsuCache.Get (main.go 219-240): under the cache lock, return a resident entry
without touching the store; otherwise run the loader: on a row, store and
return it; on sql.ErrNoRows return sql.ErrNoRows without storing; on any
other error propagate it without storing.  The Bool records whether the
loader (the store) was called. -/
def cacheGet (loader : String → Load α) (m : CacheMap α) (k : String) :
    Except DbErr α × CacheMap α × Bool :=
  match cacheFind m k with
  | some v => (.ok v, m, false)
  | none =>
    match loader k with
    | .found v => (.ok v, cachePut m k v, true)
    | .noRows => (.error .noRows, m, true)
    | .err => (.error .other, m, true)

/-- Errors returned by UserCache.Get: either the fmt.Errorf("db error: %v")
wrapper around a loader error (built with %v, not %w, so it never satisfies
errors.Is(err, sql.ErrNoRows)), or a direct sql.ErrNoRows. -/
inductive UserGetErr where
  | wrapped (e : DbErr)
  | noRows
deriving DecidableEq

/-- UserCache.Get (main.go 253-271): under the lock, a resident marker is
returned without a store call; otherwise db.Get(&count, "SELECT 1 FROM user
WHERE jia_user_id = ?") runs: any loader error (including the sql.ErrNoRows
that sqlx reports when the SELECT matches no row) is wrapped by
fmt.Errorf("db error: %v", err) and returned; a zero count yields
sql.ErrNoRows; otherwise the marker is stored and true returned.  The Bool
records whether the loader was called. -/
def userCacheGet (loader : String → Except DbErr Nat) (m : CacheMap Unit)
    (k : String) : Except UserGetErr Bool × CacheMap Unit × Bool :=
  match cacheFind m k with
  | some _ => (.ok true, m, false)
  | none =>
    match loader k with
    | .error e => (.error (.wrapped e), m, true)
    | .ok count =>
      if count = 0 then (.error .noRows, m, true)
      else (.ok true, cachePut m k (), true)

/-- The loader UserCache.Get actually runs: sqlx db.Get of "SELECT 1 FROM
user WHERE jia_user_id = ?" scans one row, so it returns 1 when the user row
exists and the error sql.ErrNoRows when it does not (it never returns a zero
count without an error). -/
def userExistsLoader (userdb : String → Bool) : String → Except DbErr Nat :=
  fun id => if userdb id then .ok 1 else .error .noRows

/-! ### Write buffer and flush cycle (main.go 296-323, 1636-1658) -/

/-- IsuCondition (main.go 90-98) as buffered by the insert queue; the
timestamp is the Unix value of the Go time.Time. -/
structure IsuCondition where
  jiaIsuUUID : String
  timestamp : Int
  isSitting : Bool
  condition : String
  message : String
  level : String
deriving DecidableEq

/-- InsertQueue (main.go 296-299): the pending slice; the lock serialises
Insert and PopAll, so one call is one atomic step. -/
abbrev InsertQueue := List IsuCondition

/-- InsertQueue.Insert (main.go 305-309): append all records under the lock. -/
def InsertQueue.Insert (iq : InsertQueue) (conds : List IsuCondition) :
    InsertQueue :=
  iq ++ conds

/-- InsertQueue.PopAll (main.go 311-317): under the lock, hand the pending
slice to the caller and install a fresh empty slice. -/
def InsertQueue.PopAll (iq : InsertQueue) : List IsuCondition × InsertQueue :=
  (iq, [])

/-- Observable actions of one flush cycle: a latest-condition cache Forget or
a batched NamedExec insert call. -/
inductive FlushEvent where
  | forget (k : String)
  | insertBatch (batch : List IsuCondition)
deriving DecidableEq

/-- State touched by the flush cycle: the insert queue, the latest-condition
cache, and the rows of the isu_condition table. -/
structure FlushState where
  queue : InsertQueue
  condCache : CacheMap IsuCondition
  store : List IsuCondition
deriving DecidableEq

/-- One tick of insertIsuConditionScheduled (main.go 1636-1658): PopAll; if
the drained slice is empty, continue; otherwise Forget the latest-condition
cache entry of every drained record, then issue the single batched NamedExec
insert.  insertOk says whether that insert succeeds; on failure the error is
only logged: the batch is neither stored nor re-enqueued. -/
def insertIsuConditionScheduledTick (insertOk : Bool) (st : FlushState) :
    FlushState × List FlushEvent :=
  match InsertQueue.PopAll st.queue with
  | (q, fresh) =>
    if q = [] then ({ st with queue := fresh }, [])
    else
      ({ queue := fresh
         condCache := q.foldl (fun m cond => cacheForget m cond.jiaIsuUUID) st.condCache
         store := if insertOk then st.store ++ q else st.store },
       q.map (fun cond => FlushEvent.forget cond.jiaIsuUUID) ++
         [FlushEvent.insertBatch q])

/-! ### Trend snapshot (main.go 273-294, 1416-1513) -/

/-- The two columns of isu that calculateTrend reads (id, jia_isu_uuid),
together with the character the row was selected by. -/
structure Isu where
  id : Int
  jiaIsuUUID : String
  character : String
deriving DecidableEq

/-- TrendCondition (main.go 163-166): isu_id and timestamp. -/
structure TrendCondition where
  id : Int
  timestamp : Int
deriving DecidableEq

/-- TrendResponse (main.go 156-161): one character with its three severity
buckets. -/
structure TrendResponse where
  character : String
  info : List TrendCondition
  warning : List TrendCondition
  critical : List TrendCondition
deriving DecidableEq

/-- Result of isuConditionCache.Get as observed by calculateTrend: the level
and Unix timestamp of a latest condition, sql.ErrNoRows, or another error. -/
inductive CondLookup where
  | found (level : String) (timestamp : Int)
  | notFound
  | storeErr
deriving DecidableEq

/-- The comparison calculateTrend sorts each bucket by (main.go 1481-1489):
descending timestamp. -/
def descByTimestamp (a b : TrendCondition) : Prop :=
  b.timestamp ≤ a.timestamp

instance : DecidableRel descByTimestamp :=
  fun a b => inferInstanceAs (Decidable (b.timestamp ≤ a.timestamp))

instance : IsTotal TrendCondition descByTimestamp :=
  ⟨fun a b => Int.le_total b.timestamp a.timestamp⟩

instance : IsTrans TrendCondition descByTimestamp :=
  ⟨fun _ _ _ hab hbc => le_trans hbc hab⟩

/-- The inner loop of calculateTrend over one character's isu list
(main.go 1448-1479): look up each isu's latest condition in the cache,
skip it on sql.ErrNoRows, abort the whole recompute (Go: return nil) on any
other error, and otherwise append (id, timestamp) to the bucket named by the
condition's level; a level matching none of info/warning/critical falls
through the switch and is appended nowhere. -/
def bucketize (condLookup : String → CondLookup) :
    List Isu → Option (List TrendCondition × List TrendCondition × List TrendCondition)
  | [] => some ([], [], [])
  | isu :: rest =>
    match condLookup isu.jiaIsuUUID with
    | .storeErr => none
    | .notFound => bucketize condLookup rest
    | .found level ts =>
      match bucketize condLookup rest with
      | none => none
      | some (i, w, c) =>
        let tc : TrendCondition := ⟨isu.id, ts⟩
        if level = "info" then some (tc :: i, w, c)
        else if level = "warning" then some (i, tc :: w, c)
        else if level = "critical" then some (i, w, tc :: c)
        else some (i, w, c)

/-- The outer loop of calculateTrend over the character list
(main.go 1432-1500): select each character's isu rows (an error aborts the
whole recompute), bucket its devices, sort each bucket by descending
timestamp, and collect the per-character responses in order. -/
def calculateTrendChars (isuListOf : String → Except Unit (List Isu))
    (condLookup : String → CondLookup) : List String → Option (List TrendResponse)
  | [] => some []
  | ch :: rest =>
    match isuListOf ch with
    | .error _ => none
    | .ok isuList =>
      match bucketize condLookup isuList with
      | none => none
      | some (i, w, c) =>
        match calculateTrendChars isuListOf condLookup rest with
        | none => none
        | some tl =>
          some ({ character := ch
                  info := List.insertionSort descByTimestamp i
                  warning := List.insertionSort descByTimestamp w
                  critical := List.insertionSort descByTimestamp c } :: tl)

/-- calculateTrend (main.go 1423-1501), abstracted over its three kinds of
store access: the GROUP BY character query, the per-character isu query, and
the latest-condition cache lookups.  Go returns nil — modelled none — when
any of them fails with an error other than sql.ErrNoRows. -/
def calculateTrend (charsRes : Except Unit (List String))
    (isuListOf : String → Except Unit (List Isu))
    (condLookup : String → CondLookup) : Option (List TrendResponse) :=
  match charsRes with
  | .error _ => none
  | .ok chars => calculateTrendChars isuListOf condLookup chars

/-- TrendCache (main.go 273-294): the published snapshot; none models the
nil slice (the value before the first recompute and after a failed one). -/
structure TrendCache where
  res : Option (List TrendResponse)
deriving DecidableEq

/-- TrendCache.Get (main.go 278-280): unsynchronised read of the published
reference. -/
def TrendCache.Get (tc : TrendCache) : Option (List TrendResponse) := tc.res

/-- TrendCache.Set (main.go 282-286): replace the published reference. -/
def TrendCache.Set (tc : TrendCache) (r : Option (List TrendResponse)) :
    TrendCache :=
  { tc with res := r }

/-- One tick of calculateTrendScheduled (main.go 1503-1513):
trendCache.Set(calculateTrend()) — the result is published unconditionally,
including the nil returned after an aborted recompute. -/
def calculateTrendScheduledTick (charsRes : Except Unit (List String))
    (isuListOf : String → Except Unit (List Isu))
    (condLookup : String → CondLookup) (tc : TrendCache) : TrendCache :=
  TrendCache.Set tc (calculateTrend charsRes isuListOf condLookup)

/-! ### Operation traces over one point cache, for the single-load claims -/

/-- One request-handler call into a point cache: Get or Forget. -/
inductive CacheOp where
  | get (k : String)
  | forget (k : String)
deriving DecidableEq

/-- Run a sequence of cache operations from a given map, with a fixed loader
(the store's contents do not change during the run).  Returns the final map,
the list of keys the loader was called with (in order), and the result of
every Get (keyed by the key it was called with). -/
def runCacheOps (loader : String → Load α) :
    List CacheOp → CacheMap α → CacheMap α × List String × List (String × Except DbErr α)
  | [], m => (m, [], [])
  | CacheOp.get k :: ops, m =>
    match cacheGet loader m k with
    | (res, m', called) =>
      match runCacheOps loader ops m' with
      | (mf, calls, outs) =>
        (mf, (if called then [k] else []) ++ calls, (k, res) :: outs)
  | CacheOp.forget k :: ops, m => runCacheOps loader ops (cacheForget m k)

/-! ### Helper lemmas: the condition-format scanner -/

theorem isPre_iff (p : List Char) :
    ∀ s, p.isPrefixOf s = true ↔ ∃ t, s = p ++ t := by
  induction p with
  | nil =>
    intro s
    simp [List.isPrefixOf]
  | cons c p ih =>
    intro s
    cases s with
    | nil => simp [List.isPrefixOf]
    | cons d s =>
      simp only [List.isPrefixOf, Bool.and_eq_true, beq_iff_eq, ih s,
        List.cons_append, List.cons.injEq]
      constructor
      · rintro ⟨rfl, t, rfl⟩
        exact ⟨t, rfl, rfl⟩
      · rintro ⟨t, rfl, rfl⟩
        exact ⟨rfl, t, rfl⟩

theorem consume_eq_some_iff (key rest r2 : List Char) :
    consumeKeyValue key rest = some r2 ↔ ∃ b, rest = key ++ boolLit b ++ r2 := by
  constructor
  · intro h
    unfold consumeKeyValue at h
    by_cases hk : key.isPrefixOf rest = true
    · obtain ⟨t, rfl⟩ := (isPre_iff key rest).mp hk
      rw [if_pos hk, List.drop_left] at h
      by_cases ht : valueTrue.isPrefixOf t = true
      · obtain ⟨u, rfl⟩ := (isPre_iff valueTrue t).mp ht
        rw [if_pos ht, List.drop_left, Option.some.injEq] at h
        exact ⟨true, by simp [boolLit, h, List.append_assoc]⟩
      · by_cases hf : valueFalse.isPrefixOf t = true
        · obtain ⟨u, rfl⟩ := (isPre_iff valueFalse t).mp hf
          rw [if_neg ht, if_pos hf, List.drop_left, Option.some.injEq] at h
          exact ⟨false, by simp [boolLit, h, List.append_assoc]⟩
        · rw [if_neg ht, if_neg hf] at h
          exact absurd h (by simp)
    · rw [if_neg hk] at h
      exact absurd h (by simp)
  · rintro ⟨b, rfl⟩
    have hk : key.isPrefixOf (key ++ boolLit b ++ r2) = true :=
      (isPre_iff key _).mpr ⟨boolLit b ++ r2, by simp⟩
    unfold consumeKeyValue
    rw [if_pos hk, List.append_assoc, List.drop_left]
    cases b with
    | true =>
      have ht : valueTrue.isPrefixOf (boolLit true ++ r2) = true :=
        (isPre_iff valueTrue _).mpr ⟨r2, by simp [boolLit]⟩
      rw [if_pos ht]
      simp [boolLit, List.drop_left]
    | false =>
      have ht : valueTrue.isPrefixOf (boolLit false ++ r2) = false := rfl
      have hf : valueFalse.isPrefixOf (boolLit false ++ r2) = true :=
        (isPre_iff valueFalse _).mpr ⟨r2, by simp [boolLit]⟩
      simp only [ht, hf, Bool.false_eq_true, if_false, if_true]
      simp [boolLit, List.drop_left]

theorem runKeys_one (key rest : List Char) :
    (runKeys [key] rest = some true ↔ ∃ b, rest = key ++ boolLit b) ∧
    runKeys [key] rest ≠ none := by
  rcases hc : consumeKeyValue key rest with _ | r2
  · refine ⟨⟨fun h => ?_, fun h => ?_⟩, fun h => ?_⟩
    · rw [runKeys, hc] at h
      simp at h
    · obtain ⟨b, rfl⟩ := h
      have : consumeKeyValue key (key ++ boolLit b) = some [] :=
        (consume_eq_some_iff _ _ _).mpr ⟨b, by simp⟩
      rw [this] at hc
      cases hc
    · rw [runKeys, hc] at h
      simp at h
  · refine ⟨⟨fun h => ?_, fun h => ?_⟩, fun h => ?_⟩
    · rw [runKeys, hc] at h
      have hr2 : r2 = [] := by simpa using h
      obtain ⟨b, hb⟩ := (consume_eq_some_iff key rest r2).mp hc
      exact ⟨b, by simpa [hr2] using hb⟩
    · obtain ⟨b, rfl⟩ := h
      have : consumeKeyValue key (key ++ boolLit b) = some [] :=
        (consume_eq_some_iff _ _ _).mpr ⟨b, by simp⟩
      rw [this, Option.some.injEq] at hc
      rw [runKeys, this]
      simp [hc]
    · rw [runKeys, hc] at h
      simp at h

theorem runKeys_two (k2 k3 rest : List Char) :
    (runKeys [k2, k3] rest = some true ↔
      ∃ b2 b3, rest = k2 ++ boolLit b2 ++ ',' :: (k3 ++ boolLit b3)) ∧
    (runKeys [k2, k3] rest = none ↔ ∃ b2, rest = k2 ++ boolLit b2) := by
  rcases hc : consumeKeyValue k2 rest with _ | r2
  · refine ⟨⟨fun h => ?_, fun h => ?_⟩, fun h => ?_, fun h => ?_⟩
    · rw [runKeys, hc] at h
      simp at h
    · obtain ⟨b2, b3, rfl⟩ := h
      have : consumeKeyValue k2 _ = some (',' :: (k3 ++ boolLit b3)) :=
        (consume_eq_some_iff k2 _ _).mpr ⟨b2, rfl⟩
      rw [this] at hc
      cases hc
    · rw [runKeys, hc] at h
      simp at h
    · obtain ⟨b2, rfl⟩ := h
      have : consumeKeyValue k2 (k2 ++ boolLit b2) = some [] :=
        (consume_eq_some_iff _ _ _).mpr ⟨b2, by simp⟩
      rw [this] at hc
      cases hc
  · rcases r2 with _ | ⟨c, r3⟩
    · refine ⟨⟨fun h => ?_, fun h => ?_⟩, fun _ => ?_, fun _ => ?_⟩
      · rw [runKeys, hc] at h
        cases h
      · obtain ⟨b2, b3, rfl⟩ := h
        have : consumeKeyValue k2 _ = some (',' :: (k3 ++ boolLit b3)) :=
          (consume_eq_some_iff k2 _ _).mpr ⟨b2, rfl⟩
        rw [this] at hc
        cases hc
      · obtain ⟨b2, hb⟩ := (consume_eq_some_iff k2 rest []).mp hc
        exact ⟨b2, by simpa using hb⟩
      · rw [runKeys, hc]
    · by_cases hcomma : c = ','
      · subst hcomma
        have hrun : runKeys [k2, k3] rest = runKeys [k3] r3 := by
          rw [runKeys, hc]
          simp
        refine ⟨⟨fun h => ?_, fun h => ?_⟩, fun h => ?_, fun h => ?_⟩
        · rw [hrun] at h
          obtain ⟨b3, rfl⟩ := (runKeys_one k3 r3).1.mp h
          obtain ⟨b2, hb⟩ := (consume_eq_some_iff k2 rest _).mp hc
          exact ⟨b2, b3, hb⟩
        · obtain ⟨b2, b3, rfl⟩ := h
          have : consumeKeyValue k2 _ = some (',' :: (k3 ++ boolLit b3)) :=
            (consume_eq_some_iff k2 _ _).mpr ⟨b2, rfl⟩
          rw [this, Option.some.injEq] at hc
          rw [hrun]
          injection hc with h1 h2
          exact (runKeys_one k3 r3).1.mpr ⟨b3, h2.symm⟩
        · rw [hrun] at h
          exact absurd h (runKeys_one k3 r3).2
        · obtain ⟨b2, rfl⟩ := h
          have : consumeKeyValue k2 (k2 ++ boolLit b2) = some [] :=
            (consume_eq_some_iff _ _ _).mpr ⟨b2, by simp⟩
          rw [this] at hc
          cases hc
      · have hrun : runKeys [k2, k3] rest = some false := by
          rw [runKeys, hc]
          simp [hcomma]
        refine ⟨⟨fun h => ?_, fun h => ?_⟩, fun h => ?_, fun h => ?_⟩
        · rw [hrun] at h
          cases h
        · obtain ⟨b2, b3, rfl⟩ := h
          have : consumeKeyValue k2 _ = some (',' :: (k3 ++ boolLit b3)) :=
            (consume_eq_some_iff k2 _ _).mpr ⟨b2, rfl⟩
          rw [this, Option.some.injEq] at hc
          injection hc with h1 _
          exact (hcomma h1.symm).elim
        · rw [hrun] at h
          cases h
        · obtain ⟨b2, rfl⟩ := h
          have : consumeKeyValue k2 (k2 ++ boolLit b2) = some [] :=
            (consume_eq_some_iff _ _ _).mpr ⟨b2, by simp⟩
          rw [this] at hc
          cases hc

theorem runKeys_three (k1 k2 k3 rest : List Char) :
    (runKeys [k1, k2, k3] rest = some true ↔
      ∃ b1 b2 b3,
        rest = k1 ++ boolLit b1 ++
          ',' :: (k2 ++ boolLit b2 ++ ',' :: (k3 ++ boolLit b3))) ∧
    (runKeys [k1, k2, k3] rest = none ↔
      (∃ b1, rest = k1 ++ boolLit b1) ∨
        ∃ b1 b2, rest = k1 ++ boolLit b1 ++ ',' :: (k2 ++ boolLit b2)) := by
  rcases hc : consumeKeyValue k1 rest with _ | r2
  · refine ⟨⟨fun h => ?_, fun h => ?_⟩, fun h => ?_, fun h => ?_⟩
    · rw [runKeys, hc] at h
      simp at h
    · obtain ⟨b1, b2, b3, rfl⟩ := h
      have : consumeKeyValue k1 _ =
          some (',' :: (k2 ++ boolLit b2 ++ ',' :: (k3 ++ boolLit b3))) :=
        (consume_eq_some_iff k1 _ _).mpr ⟨b1, rfl⟩
      rw [this] at hc
      cases hc
    · rw [runKeys, hc] at h
      simp at h
    · rcases h with ⟨b1, rfl⟩ | ⟨b1, b2, rfl⟩
      · have : consumeKeyValue k1 (k1 ++ boolLit b1) = some [] :=
          (consume_eq_some_iff _ _ _).mpr ⟨b1, by simp⟩
        rw [this] at hc
        cases hc
      · have : consumeKeyValue k1 _ = some (',' :: (k2 ++ boolLit b2)) :=
          (consume_eq_some_iff k1 _ _).mpr ⟨b1, rfl⟩
        rw [this] at hc
        cases hc
  · rcases r2 with _ | ⟨c, r3⟩
    · refine ⟨⟨fun h => ?_, fun h => ?_⟩, fun _ => ?_, fun _ => ?_⟩
      · rw [runKeys, hc] at h
        cases h
      · obtain ⟨b1, b2, b3, rfl⟩ := h
        have : consumeKeyValue k1 _ =
            some (',' :: (k2 ++ boolLit b2 ++ ',' :: (k3 ++ boolLit b3))) :=
          (consume_eq_some_iff k1 _ _).mpr ⟨b1, rfl⟩
        rw [this] at hc
        cases hc
      · obtain ⟨b1, hb⟩ := (consume_eq_some_iff k1 rest []).mp hc
        exact Or.inl ⟨b1, by simpa using hb⟩
      · rw [runKeys, hc]
    · by_cases hcomma : c = ','
      · subst hcomma
        have hrun : runKeys [k1, k2, k3] rest = runKeys [k2, k3] r3 := by
          rw [runKeys, hc]
          simp
        refine ⟨⟨fun h => ?_, fun h => ?_⟩, fun h => ?_, fun h => ?_⟩
        · rw [hrun] at h
          obtain ⟨b2, b3, rfl⟩ := (runKeys_two k2 k3 r3).1.mp h
          obtain ⟨b1, hb⟩ := (consume_eq_some_iff k1 rest _).mp hc
          exact ⟨b1, b2, b3, hb⟩
        · obtain ⟨b1, b2, b3, rfl⟩ := h
          have : consumeKeyValue k1 _ =
              some (',' :: (k2 ++ boolLit b2 ++ ',' :: (k3 ++ boolLit b3))) :=
            (consume_eq_some_iff k1 _ _).mpr ⟨b1, rfl⟩
          rw [this, Option.some.injEq] at hc
          rw [hrun]
          injection hc with h1 h2
          exact (runKeys_two k2 k3 r3).1.mpr ⟨b2, b3, h2.symm⟩
        · rw [hrun] at h
          obtain ⟨b2, rfl⟩ := (runKeys_two k2 k3 r3).2.mp h
          obtain ⟨b1, hb⟩ := (consume_eq_some_iff k1 rest _).mp hc
          exact Or.inr ⟨b1, b2, hb⟩
        · rcases h with ⟨b1, rfl⟩ | ⟨b1, b2, rfl⟩
          · have : consumeKeyValue k1 (k1 ++ boolLit b1) = some [] :=
              (consume_eq_some_iff _ _ _).mpr ⟨b1, by simp⟩
            rw [this] at hc
            cases hc
          · have : consumeKeyValue k1 _ = some (',' :: (k2 ++ boolLit b2)) :=
              (consume_eq_some_iff k1 _ _).mpr ⟨b1, rfl⟩
            rw [this, Option.some.injEq] at hc
            rw [hrun]
            injection hc with h1 h2
            exact (runKeys_two k2 k3 r3).2.mpr ⟨b2, h2.symm⟩
      · have hrun : runKeys [k1, k2, k3] rest = some false := by
          rw [runKeys, hc]
          simp [hcomma]
        refine ⟨⟨fun h => ?_, fun h => ?_⟩, fun h => ?_, fun h => ?_⟩
        · rw [hrun] at h
          cases h
        · obtain ⟨b1, b2, b3, rfl⟩ := h
          have : consumeKeyValue k1 _ =
              some (',' :: (k2 ++ boolLit b2 ++ ',' :: (k3 ++ boolLit b3))) :=
            (consume_eq_some_iff k1 _ _).mpr ⟨b1, rfl⟩
          rw [this, Option.some.injEq] at hc
          injection hc with h1 _
          exact (hcomma h1.symm).elim
        · rw [hrun] at h
          cases h
        · rcases h with ⟨b1, rfl⟩ | ⟨b1, b2, rfl⟩
          · have : consumeKeyValue k1 (k1 ++ boolLit b1) = some [] :=
              (consume_eq_some_iff _ _ _).mpr ⟨b1, by simp⟩
            rw [this] at hc
            cases hc
          · have : consumeKeyValue k1 _ = some (',' :: (k2 ++ boolLit b2)) :=
              (consume_eq_some_iff k1 _ _).mpr ⟨b1, rfl⟩
            rw [this, Option.some.injEq] at hc
            injection hc with h1 _
            exact (hcomma h1.symm).elim

/-! ### Helper lemmas: point caches -/

theorem cacheFind_put_ne {α : Type} (m : CacheMap α) (k k' : String) (v : α)
    (h : k ≠ k') : cacheFind (cachePut m k' v) k = cacheFind m k := by
  simp [cachePut, cacheFind, h]

theorem cacheFind_forget_ne {α : Type} (m : CacheMap α) (k k' : String)
    (h : k ≠ k') : cacheFind (cacheForget m k') k = cacheFind m k := by
  induction m with
  | nil => rfl
  | cons p m ih =>
    obtain ⟨kp, vp⟩ := p
    by_cases hp : kp = k'
    · subst hp
      rw [cacheForget, if_pos rfl, ih, cacheFind, if_neg (fun hh => h (hh.trans rfl))]
    · rw [cacheForget, if_neg hp]
      by_cases hk : k = kp
      · subst hk
        rw [cacheFind, if_pos rfl, cacheFind, if_pos rfl]
      · rw [cacheFind, if_neg hk, cacheFind, if_neg hk, ih]

theorem runCacheOps_cached {α : Type} (loader : String → Load α) (k : String)
    (v : α) :
    ∀ (ops : List CacheOp) (m : CacheMap α), cacheFind m k = some v →
      CacheOp.forget k ∉ ops →
      cacheFind (runCacheOps loader ops m).1 k = some v ∧
      (runCacheOps loader ops m).2.1.count k = 0 ∧
      (∀ r, (k, r) ∈ (runCacheOps loader ops m).2.2 → r = .ok v) := by
  intro ops
  induction ops with
  | nil =>
    intro m hm _
    refine ⟨hm, rfl, ?_⟩
    intro r hr
    simp [runCacheOps] at hr
  | cons op ops ih =>
    intro m hm hf
    have hfops : CacheOp.forget k ∉ ops := fun h => hf (List.mem_cons_of_mem _ h)
    match op with
    | CacheOp.get k' =>
      by_cases hk : k' = k
      · subst hk
        have hget : cacheGet loader m k' = (.ok v, m, false) := by
          rw [cacheGet, hm]
        obtain ⟨h1, h2, h3⟩ := ih m hm hfops
        rcases hrec : runCacheOps loader ops m with ⟨mf, calls, outs⟩
        rw [hrec] at h1 h2 h3
        have hstep : runCacheOps loader (CacheOp.get k' :: ops) m =
            (mf, calls, (k', Except.ok v) :: outs) := by
          rw [runCacheOps, hget]
          simp [hrec]
        rw [hstep]
        refine ⟨h1, h2, ?_⟩
        intro r hr
        rcases List.mem_cons.mp hr with hh | hh
        · injection hh with hh1 hh2
        · exact h3 r hh
      · have hfind : cacheFind (cacheGet loader m k').2.1 k = some v := by
          rw [cacheGet]
          rcases hfm : cacheFind m k' with _ | w
          · rcases hl : loader k' with w | _ | _
            · simpa [cacheFind_put_ne m k k' w (fun hh => hk hh.symm)] using hm
            · exact hm
            · exact hm
          · exact hm
        obtain ⟨h1, h2, h3⟩ := ih (cacheGet loader m k').2.1 hfind hfops
        refine ⟨?_, ?_, ?_⟩
        · simpa [runCacheOps] using h1
        · simp only [runCacheOps]
          rcases hres : cacheGet loader m k' with ⟨res, m', called⟩
          rw [hres] at h2
          simp only [List.count_append]
          rw [h2]
          cases called
          · simp
          · simp [List.count_singleton, hk]
        · intro r hr
          simp only [runCacheOps] at hr
          rcases hres : cacheGet loader m k' with ⟨res, m', called⟩
          rw [hres] at hr h3
          rcases List.mem_cons.mp hr with hh | hh
          · exact absurd (congrArg Prod.fst hh) (by simpa using fun hh2 => hk hh2.symm)
          · exact h3 r hh
    | CacheOp.forget k' =>
      have hk : k' ≠ k := fun hh => hf (by simp [hh])
      have hfind : cacheFind (cacheForget m k') k = some v := by
        rw [cacheFind_forget_ne m k k' (fun hh => hk hh.symm)]
        exact hm
      obtain ⟨h1, h2, h3⟩ := ih (cacheForget m k') hfind hfops
      exact ⟨by simpa [runCacheOps] using h1, by simpa [runCacheOps] using h2,
        fun r hr => h3 r (by simpa [runCacheOps] using hr)⟩

/-! ### Helper lemmas: trend recompute -/

theorem bucketize_eq_none_iff (condLookup : String → CondLookup) :
    ∀ isuList : List Isu,
      bucketize condLookup isuList = none ↔
        ∃ isu ∈ isuList, condLookup isu.jiaIsuUUID = .storeErr := by
  intro isuList
  induction isuList with
  | nil => simp [bucketize]
  | cons isu rest ih =>
    rw [bucketize]
    rcases hl : condLookup isu.jiaIsuUUID with ⟨level, ts⟩ | _ | _ <;>
      simp only [hl]
    · rcases hb : bucketize condLookup rest with _ | ⟨i, w, c⟩ <;>
        simp only [hb]
      · constructor
        · intro _
          obtain ⟨isu', h1, h2⟩ := ih.mp hb
          exact ⟨isu', List.mem_cons_of_mem _ h1, h2⟩
        · intro _
          trivial
      · constructor
        · intro h
          by_cases h1 : level = "info"
          · simp [h1] at h
          · by_cases h2 : level = "warning"
            · simp [h1, h2] at h
            · by_cases h3 : level = "critical"
              · simp [h1, h2, h3] at h
              · simp [h1, h2, h3] at h
        · rintro ⟨isu', h1, h2⟩
          rcases List.mem_cons.mp h1 with h1 | h1
          · rw [h1, hl] at h2
            cases h2
          · exact absurd (ih.mpr ⟨isu', h1, h2⟩) (by simp [hb])
    · rw [ih]
      constructor
      · rintro ⟨isu', h1, h2⟩
        exact ⟨isu', List.mem_cons_of_mem _ h1, h2⟩
      · rintro ⟨isu', h1, h2⟩
        rcases List.mem_cons.mp h1 with h1 | h1
        · rw [h1, hl] at h2
          cases h2
        · exact ⟨isu', h1, h2⟩
    · constructor
      · intro _
        exact ⟨isu, List.mem_cons_self .., hl⟩
      · intro _
        trivial

theorem bucketize_mem (condLookup : String → CondLookup) :
    ∀ (isuList : List Isu) (i w c : List TrendCondition),
      bucketize condLookup isuList = some (i, w, c) →
      (∀ tc ∈ i, ∃ isu ∈ isuList,
        condLookup isu.jiaIsuUUID = .found "info" tc.timestamp ∧ tc.id = isu.id) ∧
      (∀ tc ∈ w, ∃ isu ∈ isuList,
        condLookup isu.jiaIsuUUID = .found "warning" tc.timestamp ∧ tc.id = isu.id) ∧
      (∀ tc ∈ c, ∃ isu ∈ isuList,
        condLookup isu.jiaIsuUUID = .found "critical" tc.timestamp ∧ tc.id = isu.id) := by
  intro isuList
  induction isuList with
  | nil =>
    intro i w c h
    rw [bucketize] at h
    simp only [Option.some.injEq, Prod.mk.injEq] at h
    obtain ⟨rfl, rfl, rfl⟩ := h
    refine ⟨?_, ?_, ?_⟩ <;> · intro tc htc; cases htc
  | cons isu rest ih =>
    intro i w c h
    rw [bucketize] at h
    rcases hl : condLookup isu.jiaIsuUUID with ⟨level, ts⟩ | _ | _ <;>
      simp only [hl] at h
    · rcases hb : bucketize condLookup rest with _ | ⟨i', w', c'⟩ <;>
        simp only [hb] at h
      · cases h
      · obtain ⟨hi, hw, hc⟩ := ih i' w' c' hb
        have lift : ∀ (l : List TrendCondition) (lv : String),
            (∀ tc ∈ l, ∃ isu' ∈ rest,
              condLookup isu'.jiaIsuUUID = .found lv tc.timestamp ∧ tc.id = isu'.id) →
            ∀ tc ∈ l, ∃ isu' ∈ isu :: rest,
              condLookup isu'.jiaIsuUUID = .found lv tc.timestamp ∧ tc.id = isu'.id := by
          intro l lv hall tc htc
          obtain ⟨isu', h1, h2⟩ := hall tc htc
          exact ⟨isu', List.mem_cons_of_mem _ h1, h2⟩
        by_cases h1 : level = "info"
        · rw [if_pos h1, Option.some.injEq, Prod.mk.injEq, Prod.mk.injEq] at h
          obtain ⟨rfl, rfl, rfl⟩ := h
          refine ⟨?_, lift w' "warning" hw, lift c' "critical" hc⟩
          intro tc htc
          rcases List.mem_cons.mp htc with rfl | htc
          · exact ⟨isu, List.mem_cons_self .., by rw [hl, h1], rfl⟩
          · exact lift i' "info" hi tc htc
        · rw [if_neg h1] at h
          by_cases h2 : level = "warning"
          · rw [if_pos h2, Option.some.injEq, Prod.mk.injEq, Prod.mk.injEq] at h
            obtain ⟨rfl, rfl, rfl⟩ := h
            refine ⟨lift i' "info" hi, ?_, lift c' "critical" hc⟩
            intro tc htc
            rcases List.mem_cons.mp htc with rfl | htc
            · exact ⟨isu, List.mem_cons_self .., by rw [hl, h2], rfl⟩
            · exact lift w' "warning" hw tc htc
          · rw [if_neg h2] at h
            by_cases h3 : level = "critical"
            · rw [if_pos h3, Option.some.injEq, Prod.mk.injEq, Prod.mk.injEq] at h
              obtain ⟨rfl, rfl, rfl⟩ := h
              refine ⟨lift i' "info" hi, lift w' "warning" hw, ?_⟩
              intro tc htc
              rcases List.mem_cons.mp htc with rfl | htc
              · exact ⟨isu, List.mem_cons_self .., by rw [hl, h3], rfl⟩
              · exact lift c' "critical" hc tc htc
            · rw [if_neg h3, Option.some.injEq, Prod.mk.injEq, Prod.mk.injEq] at h
              obtain ⟨rfl, rfl, rfl⟩ := h
              exact ⟨lift i' "info" hi, lift w' "warning" hw, lift c' "critical" hc⟩
    · obtain ⟨hi, hw, hc⟩ := ih i w c h
      refine ⟨fun tc htc => ?_, fun tc htc => ?_, fun tc htc => ?_⟩
      · obtain ⟨isu', h1, h2⟩ := hi tc htc
        exact ⟨isu', List.mem_cons_of_mem _ h1, h2⟩
      · obtain ⟨isu', h1, h2⟩ := hw tc htc
        exact ⟨isu', List.mem_cons_of_mem _ h1, h2⟩
      · obtain ⟨isu', h1, h2⟩ := hc tc htc
        exact ⟨isu', List.mem_cons_of_mem _ h1, h2⟩
    · cases h

theorem trendChars_mem (isuListOf : String → Except Unit (List Isu))
    (condLookup : String → CondLookup) :
    ∀ (chars : List String) (res : List TrendResponse),
      calculateTrendChars isuListOf condLookup chars = some res →
      ∀ entry ∈ res, ∃ isuList i w c,
        isuListOf entry.character = .ok isuList ∧
        bucketize condLookup isuList = some (i, w, c) ∧
        entry.info = List.insertionSort descByTimestamp i ∧
        entry.warning = List.insertionSort descByTimestamp w ∧
        entry.critical = List.insertionSort descByTimestamp c := by
  intro chars
  induction chars with
  | nil =>
    intro res h entry hentry
    rw [calculateTrendChars, Option.some.injEq] at h
    rw [← h] at hentry
    cases hentry
  | cons ch rest ih =>
    intro res h entry hentry
    rw [calculateTrendChars] at h
    rcases hlist : isuListOf ch with _ | isuList <;> simp only [hlist] at h
    · cases h
    · rcases hb : bucketize condLookup isuList with _ | ⟨i, w, c⟩ <;>
        simp only [hb] at h
      · cases h
      · rcases hrest : calculateTrendChars isuListOf condLookup rest with _ | tl <;>
          simp only [hrest] at h
        · cases h
        · rw [Option.some.injEq] at h
          subst h
          rcases List.mem_cons.mp hentry with rfl | hmem
          · exact ⟨isuList, i, w, c, hlist, hb, rfl, rfl, rfl⟩
          · exact ih tl hrest entry hmem

theorem trendChars_fail (isuListOf : String → Except Unit (List Isu))
    (condLookup : String → CondLookup) :
    ∀ chars : List String,
      (∃ ch ∈ chars, isuListOf ch = .error () ∨
        ∃ isuList, isuListOf ch = .ok isuList ∧
          ∃ isu ∈ isuList, condLookup isu.jiaIsuUUID = .storeErr) →
      calculateTrendChars isuListOf condLookup chars = none := by
  intro chars
  induction chars with
  | nil =>
    rintro ⟨ch, hch, _⟩
    cases hch
  | cons ch rest ih =>
    rintro ⟨ch', hch', hfail⟩
    rw [calculateTrendChars]
    rcases List.mem_cons.mp hch' with rfl | hmem
    · rcases hfail with herr | ⟨isuList, hok, hstore⟩
      · simp only [herr]
      · simp only [hok]
        have hb : bucketize condLookup isuList = none :=
          (bucketize_eq_none_iff _ _).mpr hstore
        simp only [hb]
    · rcases hlist : isuListOf ch with _ | isuList <;> simp only [hlist]
      rcases hb : bucketize condLookup isuList with _ | ⟨i, w, c⟩ <;>
        simp only [hb]
      rw [ih ⟨ch', hmem, hfail⟩]

/-! ### Claim theorems -/

/-- Claim C1, as stated, is false on the code: with a previously published
non-empty snapshot and a character query that fails, one scheduler tick
publishes the nil result of the aborted recompute, so GetSnapshot afterwards
returns nil instead of the previous snapshot. -/
theorem trend_error_replaces_snapshot_cex :
    TrendCache.Get
      (calculateTrendScheduledTick (.error ()) (fun _ => .ok [])
        (fun _ => .notFound) (TrendCache.mk (some [⟨"X", [], [], []⟩]))) = none ∧
    TrendCache.Get (TrendCache.mk (some [⟨"X", [], [], []⟩])) ≠ none := by
  decide

/-- Claim C1 (amended): when a recompute cycle hits a store read error or a
latest-condition cache error other than not-found, calculateTrend aborts and
returns nil, but the scheduler tick still publishes that nil, so GetSnapshot
returns the nil snapshot — the previous snapshot is replaced, not kept. -/
theorem trend_error_publishes_nil
    (charsRes : Except Unit (List String))
    (isuListOf : String → Except Unit (List Isu))
    (condLookup : String → CondLookup) (tc : TrendCache)
    (hfail : charsRes = .error () ∨
      ∃ chars, charsRes = .ok chars ∧ ∃ ch ∈ chars,
        isuListOf ch = .error () ∨
          ∃ isuList, isuListOf ch = .ok isuList ∧
            ∃ isu ∈ isuList, condLookup isu.jiaIsuUUID = .storeErr) :
    TrendCache.Get (calculateTrendScheduledTick charsRes isuListOf condLookup tc) =
      none := by
  rcases hfail with rfl | ⟨chars, rfl, hfail⟩
  · rfl
  · show TrendCache.Get
      (TrendCache.Set tc (calculateTrend (.ok chars) isuListOf condLookup)) = none
    rw [calculateTrend]
    rw [trendChars_fail isuListOf condLookup chars hfail]
    rfl

/-- Witness for the amended C1 theorem at a concrete failing recompute. -/
theorem trend_error_publishes_nil_witness :
    TrendCache.Get
      (calculateTrendScheduledTick (.error ()) (fun _ => .ok [])
        (fun _ => .notFound) (TrendCache.mk (some []))) = none :=
  trend_error_publishes_nil (.error ()) (fun _ => .ok []) (fun _ => .notFound)
    (TrendCache.mk (some [])) (Or.inl rfl)

/-- Claim C2, as stated, is false on the code: on the input "is_dirty=true"
the validator does not totally evaluate to false — the comma check
conditionStr[idxCondStr] indexes one past the end of the string and the Go
program panics with an out-of-range access (modelled by none). -/
theorem condition_format_panic_cex :
    isValidConditionFormat
      ['i', 's', '_', 'd', 'i', 'r', 't', 'y', '=', 't', 'r', 'u', 'e'] =
      none := by
  decide

/-- Claim C2 (amended): the validator returns true exactly on the eight
strings of the grammar is_dirty=b1,is_overweight=b2,is_broken=b3, and it
returns false on every other input except the six inputs that end exactly
after the first or second boolean value (where a separating comma is
required), on which it performs an out-of-range string access instead of
returning. -/
theorem condition_format_characterization (s : List Char) :
    (isValidConditionFormat s = some true ↔
      ∃ b1 b2 b3, s = mkConditionStr b1 b2 b3) ∧
    (isValidConditionFormat s = none ↔
      (∃ b1, s = overrunInput1 b1) ∨ ∃ b1 b2, s = overrunInput2 b1 b2) := by
  have h := runKeys_three keyIsDirty keyIsOverweight keyIsBroken s
  constructor
  · simpa [isValidConditionFormat, conditionKeys, mkConditionStr] using h.1
  · simpa [isValidConditionFormat, conditionKeys, overrunInput1,
      overrunInput2] using h.2

/-- Claim C3: every condition string accepted by the format validator is one
of the eight grammar strings, and calculateConditionLevel maps it without
error to info for zero true assignments, warning for one or two, and critical
for three. -/
theorem condition_level_of_valid (s : List Char)
    (h : isValidConditionFormat s = some true) :
    ∃ b1 b2 b3, s = mkConditionStr b1 b2 b3 ∧
      calculateConditionLevel s = .ok
        (if b1.toNat + b2.toNat + b3.toNat = 0 then conditionLevelInfo
         else if b1.toNat + b2.toNat + b3.toNat ≤ 2 then conditionLevelWarning
         else conditionLevelCritical) := by
  have h' : runKeys [keyIsDirty, keyIsOverweight, keyIsBroken] s = some true := by
    simpa [isValidConditionFormat, conditionKeys] using h
  obtain ⟨b1, b2, b3, rfl⟩ :=
    (runKeys_three keyIsDirty keyIsOverweight keyIsBroken _).1.mp h'
  refine ⟨b1, b2, b3, rfl, ?_⟩
  cases b1 <;> cases b2 <;> cases b3 <;> decide

/-- Witness for C3 at the concrete accepted string with two true flags. -/
theorem condition_level_of_valid_witness :
    ∃ b1 b2 b3, mkConditionStr true true false = mkConditionStr b1 b2 b3 ∧
      calculateConditionLevel (mkConditionStr true true false) = .ok
        (if b1.toNat + b2.toNat + b3.toNat = 0 then conditionLevelInfo
         else if b1.toNat + b2.toNat + b3.toNat ≤ 2 then conditionLevelWarning
         else conditionLevelCritical) :=
  condition_level_of_valid (mkConditionStr true true false) (by decide)

/-- Claim C4: when the flush cycle's batched insert fails, the batch is
discarded — the pending sequence after the tick is empty exactly as on
success, none of the drained records is back in the buffer, the store is
unchanged, and the event trace still shows the per-record invalidations
followed by the single insert attempt (no retry). -/
theorem flush_failure_discards (st : FlushState) (hne : st.queue ≠ []) :
    (insertIsuConditionScheduledTick false st).1.queue = [] ∧
    (∀ r ∈ st.queue, r ∉ (insertIsuConditionScheduledTick false st).1.queue) ∧
    (insertIsuConditionScheduledTick false st).1.queue =
      (insertIsuConditionScheduledTick true st).1.queue ∧
    (insertIsuConditionScheduledTick false st).1.store = st.store ∧
    (insertIsuConditionScheduledTick false st).2 =
      st.queue.map (fun cond => FlushEvent.forget cond.jiaIsuUUID) ++
        [FlushEvent.insertBatch st.queue] := by
  obtain ⟨q, cc, sto⟩ := st
  simp only [] at hne
  simp [insertIsuConditionScheduledTick, InsertQueue.PopAll, hne]

/-- Witness for C4 at a concrete one-record batch. -/
theorem flush_failure_discards_witness :
    (insertIsuConditionScheduledTick false
      ⟨[⟨"a", 5, true, "c", "m", "info"⟩], [], []⟩).1.queue = [] :=
  (flush_failure_discards ⟨[⟨"a", 5, true, "c", "m", "info"⟩], [], []⟩
    (by decide)).1

/-- Claim C5: a flush tick first drains the queue; when the drained sequence
is empty the tick changes nothing and performs no invalidation and no store
call, and otherwise it empties the queue and its event trace is exactly one
Forget per drained record (in drain order) followed by one batched insert
carrying all drained records. -/
theorem flush_cycle_events (insertOk : Bool) (st : FlushState) :
    (st.queue = [] → insertIsuConditionScheduledTick insertOk st = (st, [])) ∧
    (st.queue ≠ [] →
      (insertIsuConditionScheduledTick insertOk st).1.queue = [] ∧
      (insertIsuConditionScheduledTick insertOk st).2 =
        st.queue.map (fun cond => FlushEvent.forget cond.jiaIsuUUID) ++
          [FlushEvent.insertBatch st.queue]) := by
  obtain ⟨q, cc, sto⟩ := st
  constructor
  · intro h
    simp only [] at h
    subst h
    simp [insertIsuConditionScheduledTick, InsertQueue.PopAll]
  · intro h
    simp only [] at h
    simp [insertIsuConditionScheduledTick, InsertQueue.PopAll, h]

/-- Witness for C5 at the empty queue. -/
theorem flush_cycle_events_witness :
    insertIsuConditionScheduledTick true ⟨[], [], []⟩ = (⟨[], [], []⟩, []) :=
  (flush_cycle_events true ⟨[], [], []⟩).1 rfl

/-- Claim C6: enqueuing A then B into a fresh queue and draining returns A
followed by B in order and leaves the pending sequence empty, so a second
drain returns the empty sequence. -/
theorem enqueue_enqueue_drain_fifo (A B : List IsuCondition) :
    InsertQueue.PopAll
        (InsertQueue.Insert (InsertQueue.Insert ([] : InsertQueue) A) B) =
      (A ++ B, []) ∧
    InsertQueue.PopAll
        (InsertQueue.PopAll
          (InsertQueue.Insert (InsertQueue.Insert ([] : InsertQueue) A) B)).2 =
      ([], []) := by
  constructor <;> simp [InsertQueue.Insert, InsertQueue.PopAll]

/-- Claim C7 at its failing input: when the user row is absent, sqlx's
db.Get reports sql.ErrNoRows as an error, so UserCache.Get returns the
fmt.Errorf-wrapped error — which is not the NotFound error the claim (and the
caller's errors.Is check) expects — though it stores nothing; the
latest-condition cache at the analogous input does return the NotFound error
and stores nothing. -/
theorem user_cache_missing_user_wrapped :
    userCacheGet (userExistsLoader (fun _ => false)) [] "u1" =
      (.error (.wrapped .noRows), [], true) ∧
    (Except.error (UserGetErr.wrapped .noRows) : Except UserGetErr Bool) ≠
      .error .noRows ∧
    cacheGet (fun _ => (Load.noRows : Load IsuCondition)) [] "d1" =
      (.error .noRows, ([] : CacheMap IsuCondition), true) := by
  decide

/-- Claim C8: starting from a map with no entry for the key, a Get whose load
succeeds caches the value, and any following operation sequence without a
Forget of that key makes no further loader call for it (one call in total)
while every Get of the key returns the cached value. -/
theorem cache_get_single_load {α : Type} (loader : String → Load α) (v : α)
    (k : String) (ops : List CacheOp) (m₀ : CacheMap α)
    (h0 : cacheFind m₀ k = none) (hl : loader k = .found v)
    (hf : CacheOp.forget k ∉ ops) :
    ((runCacheOps loader (CacheOp.get k :: ops) m₀).2.1.count k = 1) ∧
    ∀ r, (k, r) ∈ (runCacheOps loader (CacheOp.get k :: ops) m₀).2.2 →
      r = .ok v := by
  have hget : cacheGet loader m₀ k = (.ok v, cachePut m₀ k v, true) := by
    rw [cacheGet, h0, hl]
  have hmem : cacheFind (cachePut m₀ k v) k = some v := by
    simp [cachePut, cacheFind]
  obtain ⟨h1, h2, h3⟩ :=
    runCacheOps_cached loader k v ops (cachePut m₀ k v) hmem hf
  rcases hrec : runCacheOps loader ops (cachePut m₀ k v) with ⟨mf, calls, outs⟩
  rw [hrec] at h1 h2 h3
  have hstep : runCacheOps loader (CacheOp.get k :: ops) m₀ =
      (mf, [k] ++ calls, (k, Except.ok v) :: outs) := by
    rw [runCacheOps, hget]
    simp [hrec]
  rw [hstep]
  constructor
  · simp [List.count_append, h2]
  · intro r hr
    rcases List.mem_cons.mp hr with hh | hh
    · injection hh with hh1 hh2
    · exact h3 r hh

/-- Witness for C8: two Gets of a cached device key and one of another key
make exactly one loader call for the first key, both its Gets returning the
loaded condition. -/
theorem cache_get_single_load_witness :
    (runCacheOps
        (fun s => if s = "a" then Load.found
          (IsuCondition.mk "a" 5 true "c" "m" "info") else .noRows)
        (CacheOp.get "a" :: [CacheOp.get "a", CacheOp.get "b"]) []).2.1.count
      "a" = 1 :=
  (cache_get_single_load
    (fun s => if s = "a" then Load.found
      (IsuCondition.mk "a" 5 true "c" "m" "info") else .noRows)
    (IsuCondition.mk "a" 5 true "c" "m" "info") "a"
    [CacheOp.get "a", CacheOp.get "b"] [] (by decide) (by decide)
    (by decide)).1

/-- Claim C9: in the two-device scenario — A (id 1, category X, critical,
timestamp 10) and B (id 2, category X, critical, timestamp 20) — one
recompute yields category X with critical bucket exactly [B, A]; and in
general every bucket of every entry of a completed recompute is sorted by
descending timestamp. -/
theorem trend_buckets_sorted_desc :
    (calculateTrend (.ok ["X"])
        (fun ch => if ch = "X" then .ok [⟨1, "a", "X"⟩, ⟨2, "b", "X"⟩]
          else .ok [])
        (fun u => if u = "a" then .found "critical" 10
          else if u = "b" then .found "critical" 20 else .notFound) =
      some [⟨"X", [], [], [⟨2, 20⟩, ⟨1, 10⟩]⟩]) ∧
    ∀ (charsRes : Except Unit (List String))
      (isuListOf : String → Except Unit (List Isu))
      (condLookup : String → CondLookup) (res : List TrendResponse),
      calculateTrend charsRes isuListOf condLookup = some res →
      ∀ entry ∈ res,
        entry.info.Sorted descByTimestamp ∧
        entry.warning.Sorted descByTimestamp ∧
        entry.critical.Sorted descByTimestamp := by
  constructor
  · decide
  · intro charsRes isuListOf condLookup res h entry hentry
    rcases charsRes with _ | chars
    · cases h
    · obtain ⟨isuList, i, w, c, _, _, hi, hw, hc⟩ :=
        trendChars_mem isuListOf condLookup chars res
          (by simpa [calculateTrend] using h) entry hentry
      refine ⟨?_, ?_, ?_⟩
      · rw [hi]
        exact List.sorted_insertionSort descByTimestamp i
      · rw [hw]
        exact List.sorted_insertionSort descByTimestamp w
      · rw [hc]
        exact List.sorted_insertionSort descByTimestamp c

/-- Witness for the general part of C9 at the concrete two-device snapshot. -/
theorem trend_buckets_sorted_desc_witness :
    (TrendResponse.mk "X" [] [] [⟨2, 20⟩, ⟨1, 10⟩]).info.Sorted
      descByTimestamp ∧
    (TrendResponse.mk "X" [] [] [⟨2, 20⟩, ⟨1, 10⟩]).warning.Sorted
      descByTimestamp ∧
    (TrendResponse.mk "X" [] [] [⟨2, 20⟩, ⟨1, 10⟩]).critical.Sorted
      descByTimestamp :=
  trend_buckets_sorted_desc.2 (.ok ["X"])
    (fun ch => if ch = "X" then .ok [⟨1, "a", "X"⟩, ⟨2, "b", "X"⟩] else .ok [])
    (fun u => if u = "a" then .found "critical" 10
      else if u = "b" then .found "critical" 20 else .notFound)
    [⟨"X", [], [], [⟨2, 20⟩, ⟨1, 10⟩]⟩] (by decide)
    (TrendResponse.mk "X" [] [] [⟨2, 20⟩, ⟨1, 10⟩]) (by decide)

/-- Claim C10: a device whose cached latest condition carries a level outside
info/warning/critical lands in none of the three buckets of its category's
entry (its id appears nowhere, given that no other device of the category
shares its id under a different uuid), and such a level never makes the
recompute fail — a per-category bucketing fails only when some lookup
reports a store error. -/
theorem trend_unknown_level_dropped
    (charsRes : Except Unit (List String))
    (isuListOf : String → Except Unit (List Isu))
    (condLookup : String → CondLookup) (res : List TrendResponse)
    (entry : TrendResponse) (isuList : List Isu) (isu : Isu)
    (lvl : String) (ts : Int)
    (hres : calculateTrend charsRes isuListOf condLookup = some res)
    (hentry : entry ∈ res)
    (hlist : isuListOf entry.character = .ok isuList)
    (hin : isu ∈ isuList)
    (hfound : condLookup isu.jiaIsuUUID = .found lvl ts)
    (hip : lvl ≠ "info") (hwp : lvl ≠ "warning") (hcp : lvl ≠ "critical")
    (huniq : ∀ isu' ∈ isuList, isu'.id = isu.id →
      isu'.jiaIsuUUID = isu.jiaIsuUUID) :
    (∀ tc ∈ entry.info, tc.id ≠ isu.id) ∧
    (∀ tc ∈ entry.warning, tc.id ≠ isu.id) ∧
    (∀ tc ∈ entry.critical, tc.id ≠ isu.id) ∧
    (∀ l : List Isu, bucketize condLookup l = none →
      ∃ isu' ∈ l, condLookup isu'.jiaIsuUUID = .storeErr) := by
  rcases charsRes with _ | chars
  · cases hres
  · obtain ⟨isuList', i, w, c, hlist', hb, hi, hw, hc⟩ :=
      trendChars_mem isuListOf condLookup chars res
        (by simpa [calculateTrend] using hres) entry hentry
    rw [hlist'] at hlist
    injection hlist with hIL
    subst hIL
    obtain ⟨hbi, hbw, hbc⟩ := bucketize_mem condLookup _ i w c hb
    have main : ∀ (bucket : List TrendCondition) (lv : String), lv ≠ lvl →
        (∀ tc ∈ bucket, ∃ isu' ∈ isuList',
          condLookup isu'.jiaIsuUUID = .found lv tc.timestamp ∧
            tc.id = isu'.id) →
        ∀ tc, tc ∈ bucket → tc.id ≠ isu.id := by
      intro bucket lv hlv hall tc htc hid
      obtain ⟨isu', hmem', hcond', hid'⟩ := hall tc htc
      have huu : isu'.jiaIsuUUID = isu.jiaIsuUUID :=
        huniq isu' hmem' (hid'.symm.trans hid)
      rw [huu, hfound] at hcond'
      injection hcond' with h1 h2
      exact hlv h1.symm
    refine ⟨?_, ?_, ?_, fun l hl => (bucketize_eq_none_iff condLookup l).mp hl⟩
    · intro tc htc
      rw [hi] at htc
      exact main i "info" (fun hh => hip hh.symm) hbi tc
        ((List.mem_insertionSort descByTimestamp).mp htc)
    · intro tc htc
      rw [hw] at htc
      exact main w "warning" (fun hh => hwp hh.symm) hbw tc
        ((List.mem_insertionSort descByTimestamp).mp htc)
    · intro tc htc
      rw [hc] at htc
      exact main c "critical" (fun hh => hcp hh.symm) hbc tc
        ((List.mem_insertionSort descByTimestamp).mp htc)

/-- Witness for C10: in the concrete recompute where device 1 reports the
empty level string, the sole entry of category X's critical bucket is not
device 1. -/
theorem trend_unknown_level_dropped_witness :
    (TrendCondition.mk 2 20).id ≠ (Isu.mk 1 "a" "X").id :=
  (trend_unknown_level_dropped (.ok ["X"])
    (fun ch => if ch = "X" then .ok [⟨1, "a", "X"⟩, ⟨2, "b", "X"⟩] else .ok [])
    (fun u => if u = "a" then .found "" 5
      else if u = "b" then .found "critical" 20 else .notFound)
    [⟨"X", [], [], [⟨2, 20⟩]⟩] (TrendResponse.mk "X" [] [] [⟨2, 20⟩])
    [⟨1, "a", "X"⟩, ⟨2, "b", "X"⟩] (Isu.mk 1 "a" "X") "" 5
    (by decide) (by decide) (by decide) (by decide) (by decide)
    (by decide) (by decide) (by decide) (by decide)).2.2.1
    (TrendCondition.mk 2 20) (by decide)

end Piscon
